import Mathlib

/-!
Verification of the pgshift icon generator (`src/pgshift/create_icon.py`).

The script synthesizes a 512 x 512 RGBA image with a closed-form per-pixel
shading function and serializes it as a PNG byte stream (signature, IHDR,
IDAT, IEND).  The per-pixel arithmetic is embedded here over the exact
rationals; Python's float arithmetic is idealized as exact real/rational
arithmetic (every constant in the source is a short decimal literal and
every comparison in the source sits far from any rounding boundary).
The source computes `dist = (nx*nx + ny*ny) ** 0.5` and compares it with
the nonnegative constants `0.85` and `0.9`; since `dist < c` iff
`dist^2 < c^2` for `c ≥ 0`, the executable embedding branches on the exact
square `dist2` and the bridge lemmas `sqrt_dist2_lt_iff` / `le_sqrt_dist2_iff`
relate those branches to the source's comparisons on `Real.sqrt`.
-/

namespace PgShift

/-- `size = 512`, the canvas side length. -/
def size : ℕ := 512

/-- `nx = (x - size/2) / (size/2)`, the normalized x coordinate. -/
def nx (x : ℕ) : ℚ := ((x : ℚ) - (size : ℚ) / 2) / ((size : ℚ) / 2)

/-- `ny = (y - size/2) / (size/2)`, the normalized y coordinate. -/
def ny (y : ℕ) : ℚ := ((y : ℚ) - (size : ℚ) / 2) / ((size : ℚ) / 2)

/-- The exact square of the source's `dist = (nx*nx + ny*ny) ** 0.5`. -/
def dist2 (x y : ℕ) : ℚ := nx x * nx x + ny y * ny y

/-- `cy1 = -0.25`, center height of the top cylinder. -/
def cy1 : ℚ := -(1 / 4)

/-- `cy2 = 0.25`, center height of the bottom cylinder. -/
def cy2 : ℚ := 1 / 4

/-- `cyl_width = 0.5`. -/
def cyl_width : ℚ := 1 / 2

/-- `cyl_height = 0.25`. -/
def cyl_height : ℚ := 1 / 4

/-- `ellipse_h = 0.08`. -/
def ellipse_h : ℚ := 2 / 25

/-- `in_top_cyl = abs(nx) < cyl_width and abs(ny - cy1) < cyl_height`. -/
@[reducible] def in_top_cyl (a b : ℚ) : Prop :=
  |a| < cyl_width ∧ |b - cy1| < cyl_height

/-- `in_bot_cyl = abs(nx) < cyl_width and abs(ny - cy2) < cyl_height`. -/
@[reducible] def in_bot_cyl (a b : ℚ) : Prop :=
  |a| < cyl_width ∧ |b - cy2| < cyl_height

/-- `top_e1 = (nx/cyl_width)**2 + ((ny - cy1 + cyl_height)/ellipse_h)**2 < 1`. -/
@[reducible] def top_e1 (a b : ℚ) : Prop :=
  (a / cyl_width) ^ 2 + ((b - cy1 + cyl_height) / ellipse_h) ^ 2 < 1

/-- `bot_e1 = (nx/cyl_width)**2 + ((ny - cy1 - cyl_height)/ellipse_h)**2 < 1`. -/
@[reducible] def bot_e1 (a b : ℚ) : Prop :=
  (a / cyl_width) ^ 2 + ((b - cy1 - cyl_height) / ellipse_h) ^ 2 < 1

/-- `top_e2 = (nx/cyl_width)**2 + ((ny - cy2 + cyl_height)/ellipse_h)**2 < 1`. -/
@[reducible] def top_e2 (a b : ℚ) : Prop :=
  (a / cyl_width) ^ 2 + ((b - cy2 + cyl_height) / ellipse_h) ^ 2 < 1

/-- `bot_e2 = (nx/cyl_width)**2 + ((ny - cy2 - cyl_height)/ellipse_h)**2 < 1`. -/
@[reducible] def bot_e2 (a b : ℚ) : Prop :=
  (a / cyl_width) ^ 2 + ((b - cy2 - cyl_height) / ellipse_h) ^ 2 < 1

/-- Python `int(...)` on the values occurring here: truncation toward zero. -/
def pyint (q : ℚ) : ℤ := if 0 ≤ q then ⌊q⌋ else ⌈q⌉

/-- One RGBA pixel; channels are mathematical integers (proved/observed to
fit a byte where a claim needs it). -/
structure RGBA where
  r : ℤ
  g : ℤ
  b : ℤ
  a : ℤ
deriving DecidableEq, Repr

/-- `shade = 1.0 - abs(nx) / cyl_width * 0.3`. -/
def shade (a : ℚ) : ℚ := 1 - |a| / cyl_width * (3 / 10)

/-- Base gradient color: `gradient = y / size`,
`(int(30 + gradient*40), int(20 + gradient*30), int(80 + gradient*80), 255)`. -/
def baseColor (y : ℕ) : RGBA :=
  ⟨pyint (30 + (y : ℚ) / (size : ℚ) * 40),
   pyint (20 + (y : ℚ) / (size : ℚ) * 30),
   pyint (80 + (y : ℚ) / (size : ℚ) * 80), 255⟩

/-- Top-cylinder membership test `in_top_cyl or top_e1 or bot_e1`. -/
@[reducible] def inTopGroup (a b : ℚ) : Prop :=
  in_top_cyl a b ∨ top_e1 a b ∨ bot_e1 a b

/-- Bottom-cylinder membership test `in_bot_cyl or top_e2 or bot_e2`. -/
@[reducible] def inBotGroup (a b : ℚ) : Prop :=
  in_bot_cyl a b ∨ top_e2 a b ∨ bot_e2 a b

/-- First `if` of the interior chain: green cylinder, with the `top_e1`
cap override applied after the shaded assignment (last write wins). -/
def cyl1Step (a b : ℚ) (c : RGBA) : RGBA :=
  if inTopGroup a b then
    if top_e1 a b then ⟨60, 220, 130, c.a⟩
    else ⟨pyint (40 * shade a), pyint (180 * shade a), pyint (100 * shade a), c.a⟩
  else c

/-- Second `if` of the interior chain: blue cylinder, with the `top_e2`
cap override applied after the shaded assignment. -/
def cyl2Step (a b : ℚ) (c : RGBA) : RGBA :=
  if inBotGroup a b then
    if top_e2 a b then ⟨80, 170, 255, c.a⟩
    else ⟨pyint (60 * shade a), pyint (140 * shade a), pyint (220 * shade a), c.a⟩
  else c

/-- Connector guard:
`abs(nx) < 0.08 and ny > cy1 + cyl_height + 0.05 and ny < cy2 - cyl_height - 0.05`. -/
@[reducible] def connCond (a b : ℚ) : Prop :=
  |a| < 2 / 25 ∧ b > cy1 + cyl_height + 1 / 20 ∧ b < cy2 - cyl_height - 1 / 20

/-- Third `if` of the interior chain: the red connector bar. -/
def connStep (a b : ℚ) (c : RGBA) : RGBA :=
  if connCond a b then ⟨255, 100, 100, c.a⟩ else c

/-- `arrow_tip_y = cy2 - cyl_height - 0.08`. -/
def arrow_tip_y : ℚ := cy2 - cyl_height - 2 / 25

/-- `arrow_w = 0.15 * (1 - (ny - arrow_tip_y + 0.08) / 0.13)`. -/
def arrow_w (b : ℚ) : ℚ := 3 / 20 * (1 - (b - arrow_tip_y + 2 / 25) / (13 / 100))

/-- The full arrowhead guard: the vertical band
`ny > arrow_tip_y - 0.08 and ny < arrow_tip_y + 0.05` together with the
taper test `abs(nx) < arrow_w`. -/
@[reducible] def arrowCond (a b : ℚ) : Prop :=
  (b > arrow_tip_y - 2 / 25 ∧ b < arrow_tip_y + 1 / 20) ∧ |a| < arrow_w b

/-- Fourth `if` of the interior chain: the red arrowhead. -/
def arrowStep (a b : ℚ) (c : RGBA) : RGBA :=
  if b > arrow_tip_y - 2 / 25 ∧ b < arrow_tip_y + 1 / 20 then
    if |a| < arrow_w b then ⟨255, 100, 100, c.a⟩ else c
  else c

/-- The whole interior (`dist < 0.85`) branch for a pixel. -/
def interiorColor (x y : ℕ) : RGBA :=
  arrowStep (nx x) (ny y)
    (connStep (nx x) (ny y)
      (cyl2Step (nx x) (ny y)
        (cyl1Step (nx x) (ny y) (baseColor y))))

/-- The integer square radius `(x-256)^2 + (y-256)^2`, so that
`dist2 x y = radSq x y / 65536`. -/
def radSq (x y : ℕ) : ℕ :=
  ((x : ℤ) - 256).natAbs ^ 2 + ((y : ℤ) - 256).natAbs ^ 2

/-- `ceilSqrtDiv t n = ⌈Real.sqrt t / n⌉` computed with integer arithmetic
(proved as `ceil_sqrt_div`). -/
def ceilSqrtDiv (t n : ℕ) : ℕ :=
  if t = 0 then 0 else Nat.sqrt (t - 1) / n + 1

/-- `rimChannel c k` is the exact value of the source's
`int(c * ((0.9 - dist) / 0.05))` on the rim band, where `k` is the integer
square radius (`dist = sqrt (k / 65536)`); in the band the argument is
nonnegative, so `int` is the floor.  The identity with the source formula
is proved as `rimChannel_eq_floor`. -/
def rimChannel (c k : ℕ) : ℤ :=
  18 * c - ceilSqrtDiv (25 * c ^ 2 * k) 64

/-- The full per-pixel shading function of the source's nested loop:
interior branch when `dist < 0.85`, fading rim when `0.85 ≤ dist < 0.9`,
transparent black when `dist ≥ 0.9`. -/
def pixel (x y : ℕ) : RGBA :=
  if dist2 x y < (17 / 20 : ℚ) ^ 2 then interiorColor x y
  else if dist2 x y < (9 / 10 : ℚ) ^ 2 then
    ⟨rimChannel 100 (radSq x y), rimChannel 80 (radSq x y),
     rimChannel 180 (radSq x y), rimChannel 255 (radSq x y)⟩
  else ⟨0, 0, 0, 0⟩

/-! ### The PNG encoder -/

/-- `struct.pack('>I', n)`: the 4-byte big-endian encoding of `n < 2^32`. -/
def pack32 (n : ℕ) : List ℕ :=
  [n / 2 ^ 24 % 256, n / 2 ^ 16 % 256, n / 2 ^ 8 % 256, n % 256]

/-- One bit step of the reflected CRC-32 used by `zlib.crc32`
(polynomial `0xEDB88320`). -/
def crc32Step (c : ℕ) : ℕ :=
  if c % 2 = 1 then (c / 2) ^^^ 0xEDB88320 else c / 2

/-- Absorb one byte into a CRC-32 accumulator: xor it in, then run eight
bit steps. -/
def crc32Byte (c b : ℕ) : ℕ := crc32Step^[8] (c ^^^ b)

/-- `zlib.crc32(data)`: standard CRC-32 with initial value and final xor
`0xFFFFFFFF`. -/
def crc32 (data : List ℕ) : ℕ :=
  data.foldl crc32Byte 0xFFFFFFFF ^^^ 0xFFFFFFFF

/-- The source's `chunk(t, d)`:
`struct.pack('>I', len(d)) + c + struct.pack('>I', zlib.crc32(c) & 0xffffffff)`
where `c = t + d`. -/
def chunk (t d : List ℕ) : List ℕ :=
  pack32 d.length ++ (t ++ d) ++ pack32 (crc32 (t ++ d) &&& 0xFFFFFFFF)

/-- `ihdr = struct.pack('>IIBBBBB', size, size, 8, 6, 0, 0, 0)`. -/
def ihdr : List ℕ := pack32 size ++ pack32 size ++ [8, 6, 0, 0, 0]

/-- The 8-byte PNG signature `b'\x89PNG\r\n\x1a\n'`. -/
def pngSignature : List ℕ := [0x89, 0x50, 0x4E, 0x47, 0x0D, 0x0A, 0x1A, 0x0A]

/-- The ASCII bytes of `b'IHDR'`. -/
def typeIHDR : List ℕ := [73, 72, 68, 82]

/-- The ASCII bytes of `b'IDAT'`. -/
def typeIDAT : List ℕ := [73, 68, 65, 84]

/-- The ASCII bytes of `b'IEND'`. -/
def typeIEND : List ℕ := [73, 69, 78, 68]

/-- The raw scanline buffer `b''.join(pixels)`: each scanline is a zero
filter byte followed by the `r, g, b, a` values of its 512 pixels. -/
def raw : List ℤ :=
  (List.range size).flatMap fun y =>
    0 :: (List.range size).flatMap fun x =>
      [(pixel x y).r, (pixel x y).g, (pixel x y).b, (pixel x y).a]

/-- The full PNG byte stream
`b'\x89PNG\r\n\x1a\n' + chunk(b'IHDR', ihdr) + chunk(b'IDAT', zlib.compress(raw, 9)) + chunk(b'IEND', b'')`.
`zlib.compress` is an external deterministic library routine; it is taken
as an explicit function parameter applied to the raw scanline buffer. -/
def png (compress : List ℤ → List ℕ) : List ℕ :=
  pngSignature ++ chunk typeIHDR ihdr ++ chunk typeIDAT (compress raw) ++
    chunk typeIEND []

/-! ### Shared helper lemmas -/

theorem dist2_nonneg (x y : ℕ) : 0 ≤ dist2 x y := by
  have h1 : 0 ≤ nx x * nx x := mul_self_nonneg _
  have h2 : 0 ≤ ny y * ny y := mul_self_nonneg _
  simpa [dist2] using add_nonneg h1 h2

/-- The exact square radius as a scaled integer. -/
theorem dist2_eq_radSq (x y : ℕ) : dist2 x y = (radSq x y : ℚ) / 65536 := by
  have hx : (((x : ℤ) - 256).natAbs : ℚ) ^ 2 = ((x : ℚ) - 256) ^ 2 := by
    rw [Int.cast_natAbs]
    push_cast
    rw [sq_abs]
  have hy : (((y : ℤ) - 256).natAbs : ℚ) ^ 2 = ((y : ℚ) - 256) ^ 2 := by
    rw [Int.cast_natAbs]
    push_cast
    rw [sq_abs]
  have hr : (radSq x y : ℚ) = ((x : ℚ) - 256) ^ 2 + ((y : ℚ) - 256) ^ 2 := by
    unfold radSq
    push_cast [← hx, ← hy]
    ring
  rw [dist2, nx, ny, hr, size]
  push_cast
  ring

/-- The cast of `dist2` to the reals, in terms of the integer square radius. -/
theorem dist2_castR (x y : ℕ) :
    ((dist2 x y : ℚ) : ℝ) = ((radSq x y : ℕ) : ℝ) / 65536 := by
  rw [dist2_eq_radSq]
  push_cast
  ring

/-- `dist < c` in the source is `dist2 < c^2` in the embedding. -/
theorem sqrt_dist2_lt_iff (x y : ℕ) (c : ℚ) (hc : 0 < c) :
    Real.sqrt ((dist2 x y : ℚ) : ℝ) < (c : ℝ) ↔ dist2 x y < c ^ 2 := by
  rw [Real.sqrt_lt' (by exact_mod_cast hc)]
  constructor
  · intro h
    exact_mod_cast h
  · intro h
    exact_mod_cast h

/-- `c ≤ dist` in the source is `c^2 ≤ dist2` in the embedding. -/
theorem le_sqrt_dist2_iff (x y : ℕ) (c : ℚ) (hc : 0 ≤ c) :
    (c : ℝ) ≤ Real.sqrt ((dist2 x y : ℚ) : ℝ) ↔ c ^ 2 ≤ dist2 x y := by
  rw [Real.le_sqrt (by exact_mod_cast hc) (by exact_mod_cast dist2_nonneg x y)]
  constructor
  · intro h
    exact_mod_cast h
  · intro h
    exact_mod_cast h

/-- `ceilSqrtDiv` computes `⌈Real.sqrt t / n⌉` with integer arithmetic. -/
theorem ceil_sqrt_div (t n : ℕ) (hn : 0 < n) :
    ⌈Real.sqrt (t : ℝ) / (n : ℝ)⌉ = (ceilSqrtDiv t n : ℤ) := by
  unfold ceilSqrtDiv
  rcases Nat.eq_zero_or_pos t with ht | ht
  · subst ht
    simp [Real.sqrt_zero]
  · rw [if_neg (by omega)]
    have hnR : (0 : ℝ) < (n : ℝ) := by exact_mod_cast hn
    have hsle : Nat.sqrt (t - 1) * Nat.sqrt (t - 1) ≤ t - 1 := Nat.sqrt_le (t - 1)
    have hslt : t - 1 < (Nat.sqrt (t - 1) + 1) * (Nat.sqrt (t - 1) + 1) :=
      Nat.lt_succ_sqrt (t - 1)
    have hdm : Nat.sqrt (t - 1) / n * n ≤ Nat.sqrt (t - 1) := Nat.div_mul_le_self _ _
    have hexp : (Nat.sqrt (t - 1) / n + 1) * n = n * (Nat.sqrt (t - 1) / n) + n := by ring
    have hmod := Nat.div_add_mod (Nat.sqrt (t - 1)) n
    have hmlt : Nat.sqrt (t - 1) % n < n := Nat.mod_lt _ hn
    have hsucc : Nat.sqrt (t - 1) + 1 ≤ (Nat.sqrt (t - 1) / n + 1) * n := by omega
    rw [Int.ceil_eq_iff]
    have hcast : ((((Nat.sqrt (t - 1) / n + 1 : ℕ) : ℤ)) : ℝ)
        = ((Nat.sqrt (t - 1) / n : ℕ) : ℝ) + 1 := by
      rw [Int.cast_natCast, Nat.cast_add, Nat.cast_one]
    rw [hcast]
    constructor
    · have hlow : (Nat.sqrt (t - 1) / n * n) ^ 2 < t := by
        have h2 : (Nat.sqrt (t - 1) / n * n) ^ 2 ≤ Nat.sqrt (t - 1) * Nat.sqrt (t - 1) := by
          calc (Nat.sqrt (t - 1) / n * n) ^ 2
              = (Nat.sqrt (t - 1) / n * n) * (Nat.sqrt (t - 1) / n * n) := sq _
            _ ≤ Nat.sqrt (t - 1) * Nat.sqrt (t - 1) := Nat.mul_le_mul hdm hdm
        omega
      have hlowR : ((Nat.sqrt (t - 1) / n : ℕ) : ℝ) * (n : ℝ) < Real.sqrt (t : ℝ) := by
        rw [← Nat.cast_mul, Real.lt_sqrt (Nat.cast_nonneg _)]
        have hlow2 : (Nat.sqrt (t - 1) / n * n) ^ 2 < t := hlow
        exact_mod_cast hlow2
      have hq : ((Nat.sqrt (t - 1) / n : ℕ) : ℝ) < Real.sqrt (t : ℝ) / (n : ℝ) :=
        (lt_div_iff₀ hnR).mpr hlowR
      linarith
    · have hklow : t ≤ ((Nat.sqrt (t - 1) / n + 1) * n) ^ 2 := by
        have hp := Nat.pow_le_pow_left hsucc 2
        have hsq : (Nat.sqrt (t - 1) + 1) ^ 2
            = (Nat.sqrt (t - 1) + 1) * (Nat.sqrt (t - 1) + 1) := sq _
        have hts : t ≤ (Nat.sqrt (t - 1) + 1) ^ 2 := by omega
        omega
      have hup : Real.sqrt (t : ℝ) ≤ (((Nat.sqrt (t - 1) / n + 1) * n : ℕ) : ℝ) := by
        have h1 := Real.sqrt_le_sqrt
          (show (t : ℝ) ≤ ((((Nat.sqrt (t - 1) / n + 1) * n : ℕ)) : ℝ) ^ 2 by exact_mod_cast hklow)
        rwa [Real.sqrt_sq (Nat.cast_nonneg _)] at h1
      have hup2 : Real.sqrt (t : ℝ) ≤ (((Nat.sqrt (t - 1) / n : ℕ) : ℝ) + 1) * (n : ℝ) := by
        rw [show (((Nat.sqrt (t - 1) / n : ℕ) : ℝ) + 1) * (n : ℝ)
            = (((Nat.sqrt (t - 1) / n + 1) * n : ℕ) : ℝ) by
          rw [Nat.cast_mul, Nat.cast_add, Nat.cast_one]]
        exact hup
      rw [div_le_iff₀ hnR]
      linarith

/-- `rimChannel c k` is the source's `int(c * ((0.9 - dist) / 0.05))` where
`dist = sqrt (k / 65536)` (the value is nonnegative throughout its use, so
`int` truncation is the floor). -/
theorem rimChannel_eq_floor (c k : ℕ) :
    rimChannel c k = ⌊(c : ℝ) * ((9 / 10 - Real.sqrt ((k : ℝ) / 65536)) / (1 / 20))⌋ := by
  have hk : (0 : ℝ) ≤ (k : ℝ) := Nat.cast_nonneg k
  have hs : Real.sqrt ((k : ℝ) / 65536) = Real.sqrt (k : ℝ) / 256 := by
    rw [show (65536 : ℝ) = 256 ^ 2 by norm_num, Real.sqrt_div hk, Real.sqrt_sq (by norm_num)]
  have hT : ((25 * c ^ 2 * k : ℕ) : ℝ) = (5 * (c : ℝ)) ^ 2 * (k : ℝ) := by push_cast; ring
  have hsT : Real.sqrt ((25 * c ^ 2 * k : ℕ) : ℝ) = 5 * (c : ℝ) * Real.sqrt (k : ℝ) := by
    rw [hT, Real.sqrt_mul (sq_nonneg _), Real.sqrt_sq (by positivity)]
  have harg : (c : ℝ) * ((9 / 10 - Real.sqrt ((k : ℝ) / 65536)) / (1 / 20))
      = ((18 * c : ℤ) : ℝ) + -(Real.sqrt ((25 * c ^ 2 * k : ℕ) : ℝ) / (64 : ℕ)) := by
    rw [hs, hsT]
    push_cast
    ring
  rw [harg, Int.floor_int_add, Int.floor_neg, ceil_sqrt_div _ 64 (by norm_num)]
  unfold rimChannel
  ring

theorem ceilSqrtDiv_mono {t u : ℕ} (n : ℕ) (h : t ≤ u) :
    ceilSqrtDiv t n ≤ ceilSqrtDiv u n := by
  unfold ceilSqrtDiv
  rcases Nat.eq_zero_or_pos t with ht | ht
  · subst ht
    rw [if_pos rfl]
    exact Nat.zero_le _
  · rw [if_neg (by omega), if_neg (by omega)]
    have hm : Nat.sqrt (t - 1) ≤ Nat.sqrt (u - 1) := Nat.sqrt_le_sqrt (by omega)
    exact Nat.succ_le_succ (Nat.div_le_div_right hm)

/-- The rim channel value is antitone in the square radius. -/
theorem rimChannel_anti (c : ℕ) {k k' : ℕ} (h : k ≤ k') :
    rimChannel c k' ≤ rimChannel c k := by
  unfold rimChannel
  have := ceilSqrtDiv_mono 64 (Nat.mul_le_mul_left (25 * c ^ 2) h)
  omega

/-- The source's connector guard demands `ny > 0.05` and `ny < -0.05` at
once, which no rational (or real) value satisfies. -/
theorem connCond_unsat (a b : ℚ) : ¬ connCond a b := by
  rintro ⟨-, h2, h3⟩
  rw [cy1, cyl_height] at h2
  rw [cy2, cyl_height] at h3
  norm_num at h2 h3
  linarith

theorem cyl1Step_a (a b : ℚ) (c : RGBA) : (cyl1Step a b c).a = c.a := by
  unfold cyl1Step
  split
  · split <;> rfl
  · rfl

theorem cyl2Step_a (a b : ℚ) (c : RGBA) : (cyl2Step a b c).a = c.a := by
  unfold cyl2Step
  split
  · split <;> rfl
  · rfl

theorem connStep_a (a b : ℚ) (c : RGBA) : (connStep a b c).a = c.a := by
  unfold connStep
  split <;> rfl

theorem arrowStep_a (a b : ℚ) (c : RGBA) : (arrowStep a b c).a = c.a := by
  unfold arrowStep
  split
  · split <;> rfl
  · rfl

theorem interiorColor_a (x y : ℕ) : (interiorColor x y).a = 255 := by
  unfold interiorColor
  rw [arrowStep_a, connStep_a, cyl2Step_a, cyl1Step_a]
  rfl

theorem pyint_le {q : ℚ} {n : ℤ} (h : q ≤ (n : ℚ)) : pyint q ≤ n := by
  unfold pyint
  split
  · have hf := Int.floor_le_floor h
    rwa [Int.floor_intCast] at hf
  · exact Int.ceil_le.mpr h

/-- `dist < 0.85` (source) iff `dist2 < 0.85^2` (embedding). -/
theorem interior_iff (x y : ℕ) :
    Real.sqrt ((dist2 x y : ℚ) : ℝ) < 17 / 20 ↔ dist2 x y < (17 / 20 : ℚ) ^ 2 := by
  have h := sqrt_dist2_lt_iff x y (17 / 20) (by norm_num)
  rwa [show (((17 : ℚ) / 20 : ℚ) : ℝ) = (17 / 20 : ℝ) by norm_num] at h

/-- `dist < 0.9` (source) iff `dist2 < 0.9^2` (embedding). -/
theorem rim_lt_iff (x y : ℕ) :
    Real.sqrt ((dist2 x y : ℚ) : ℝ) < 9 / 10 ↔ dist2 x y < (9 / 10 : ℚ) ^ 2 := by
  have h := sqrt_dist2_lt_iff x y (9 / 10) (by norm_num)
  rwa [show (((9 : ℚ) / 10 : ℚ) : ℝ) = (9 / 10 : ℝ) by norm_num] at h

/-- `0.85 ≤ dist` (source) iff `0.85^2 ≤ dist2` (embedding). -/
theorem rim_le_iff (x y : ℕ) :
    (17 / 20 : ℝ) ≤ Real.sqrt ((dist2 x y : ℚ) : ℝ) ↔ (17 / 20 : ℚ) ^ 2 ≤ dist2 x y := by
  have h := le_sqrt_dist2_iff x y (17 / 20) (by norm_num)
  rwa [show (((17 : ℚ) / 20 : ℚ) : ℝ) = (17 / 20 : ℝ) by norm_num] at h

/-- `0.9 ≤ dist` (source) iff `0.9^2 ≤ dist2` (embedding). -/
theorem outer_iff (x y : ℕ) :
    (9 / 10 : ℝ) ≤ Real.sqrt ((dist2 x y : ℚ) : ℝ) ↔ (9 / 10 : ℚ) ^ 2 ≤ dist2 x y := by
  have h := le_sqrt_dist2_iff x y (9 / 10) (by norm_num)
  rwa [show (((9 : ℚ) / 10 : ℚ) : ℝ) = (9 / 10 : ℝ) by norm_num] at h

theorem rimChannel_255_47350 : rimChannel 255 47350 = 254 := by
  norm_num [rimChannel, ceilSqrtDiv]

theorem rimChannel_255_47524 : rimChannel 255 47524 = 247 := by
  norm_num [rimChannel, ceilSqrtDiv]

theorem rimChannel_255_50176 : rimChannel 255 50176 = 127 := by
  norm_num [rimChannel, ceilSqrtDiv]

theorem rimChannel_255_53084 : rimChannel 255 53084 = 0 := by
  norm_num [rimChannel, ceilSqrtDiv]

theorem rimChannel_100_47350 : rimChannel 100 47350 = 99 := by
  norm_num [rimChannel, ceilSqrtDiv]

/-- A pixel that misses the interior branch has square radius at least
`47350` (`0.85^2 * 65536 = 47349.76`). -/
theorem radSq_ge_of_rim (x y : ℕ) (h : ¬ dist2 x y < (17 / 20 : ℚ) ^ 2) :
    47350 ≤ radSq x y := by
  rw [dist2_eq_radSq] at h
  push_neg at h
  have h2 : (289 : ℚ) / 400 ≤ (radSq x y : ℚ) / 65536 := by
    refine le_trans (by norm_num) h
  rw [div_le_div_iff₀ (by norm_num) (by norm_num)] at h2
  have h3 : (18939904 : ℚ) ≤ (radSq x y : ℚ) * 400 := by linarith
  have h4 : (18939904 : ℕ) ≤ radSq x y * 400 := by exact_mod_cast h3
  omega

/-- In the rim band, the pixel's alpha channel is `rimChannel 255` of the
square radius. -/
theorem pixel_rim_a (x y : ℕ) (h1 : (17 / 20 : ℚ) ^ 2 ≤ dist2 x y)
    (h2 : dist2 x y < (9 / 10 : ℚ) ^ 2) :
    (pixel x y).a = rimChannel 255 (radSq x y) := by
  unfold pixel
  rw [if_neg (not_lt.2 h1), if_pos h2]

/-- The connector step never changes the pixel (cf. `connCond_unsat`). -/
theorem connStep_noop (a b : ℚ) (c : RGBA) : connStep a b c = c := by
  unfold connStep
  rw [if_neg (connCond_unsat a b)]

theorem arrowStep_of_not (a b : ℚ) (c : RGBA) (h : ¬ arrowCond a b) :
    arrowStep a b c = c := by
  unfold arrowStep
  split
  · rename_i hband
    rw [if_neg fun hw => h ⟨hband, hw⟩]
  · rfl

theorem shade_le_one (a : ℚ) : shade a ≤ 1 := by
  rw [shade]
  have h : 0 ≤ |a| / cyl_width * (3 / 10) := by
    rw [cyl_width]
    positivity
  linarith

theorem cyl1Step_r_le (a b : ℚ) (c : RGBA) (h : c.r ≤ 70) :
    (cyl1Step a b c).r ≤ 70 := by
  unfold cyl1Step
  split
  · split
    · norm_num
    · refine le_trans (pyint_le (q := 40 * shade a) (n := 40) ?_) (by norm_num)
      push_cast
      nlinarith [shade_le_one a]
  · exact h

theorem cyl2Step_r_le (a b : ℚ) (c : RGBA) (h : c.r ≤ 80) :
    (cyl2Step a b c).r ≤ 80 := by
  unfold cyl2Step
  split
  · split
    · norm_num
    · refine le_trans (pyint_le (q := 60 * shade a) (n := 60) ?_) (by norm_num)
      push_cast
      nlinarith [shade_le_one a]
  · exact h

/-- Absent the arrowhead, the red channel never reaches 255: the base
gradient tops out at 70, the shaded cylinder colors at 40/60, and the cap
overrides at 60/80; on the rim it is at most 99, outside it is 0. -/
theorem pixel_r_lt_255 (x y : ℕ) (hnoarrow : ¬ arrowCond (nx x) (ny y)) :
    (pixel x y).r < 255 := by
  unfold pixel
  split
  · rename_i h1
    have hny2 : ny y * ny y ≤ dist2 x y := by
      have hx2 := mul_self_nonneg (nx x)
      rw [dist2]
      linarith
    have hy512 : (y : ℚ) < 512 := by
      by_contra hge
      push_neg at hge
      have hd : (1 : ℚ) ≤ ny y := by
        rw [ny, size]
        push_cast
        rw [le_div_iff₀ (by norm_num)]
        linarith
      nlinarith
    have hbase : (baseColor y).r ≤ 70 := by
      refine pyint_le ?_
      rw [size]
      push_cast
      have hg : (y : ℚ) / 512 ≤ 1 := by
        rw [div_le_one (by norm_num)]
        linarith
      nlinarith
    unfold interiorColor
    rw [arrowStep_of_not _ _ _ hnoarrow, connStep_noop]
    have h2 := cyl2Step_r_le (nx x) (ny y) _
      (le_trans (cyl1Step_r_le (nx x) (ny y) _ hbase) (by norm_num))
    omega
  · split
    · rename_i hni h2
      have hk := radSq_ge_of_rim x y hni
      have hanti := rimChannel_anti 100 hk
      have hval := rimChannel_100_47350
      show rimChannel 100 (radSq x y) < 255
      omega
    · norm_num

/-! ### The claims -/

/-- C1 counterexample: the pixel at canvas center (256, 256) lies inside the
top cylinder's lower cap ellipse (`bot_e1`) and the bottom cylinder's upper
cap ellipse (`top_e2`) — both are centered at `ny = 0` — so its final color
is the bottom-cap override (80, 170, 255, 255), not the base gradient color
(50, 35, 120, 255) asserted by the claim. -/
theorem c1_center_pixel_counterexample :
    bot_e1 (nx 256) (ny 256) ∧ top_e2 (nx 256) (ny 256) ∧
    pixel 256 256 = ⟨80, 170, 255, 255⟩ ∧ pixel 256 256 ≠ ⟨50, 35, 120, 255⟩ := by
  norm_num [pixel, interiorColor, arrowStep, connStep, cyl2Step, cyl1Step, baseColor,
    inTopGroup, inBotGroup, in_top_cyl, in_bot_cyl, top_e1, bot_e1, top_e2, bot_e2,
    connCond, arrow_w, arrow_tip_y, shade, pyint, nx, ny, dist2, size, cy1, cy2,
    cyl_width, cyl_height, ellipse_h, abs_of_nonneg, abs_of_nonpos]

/-- C1 (amended): the pixel at canvas center (256, 256) normalizes to
`nx = 0`, `ny = 0` with `dist = 0` and takes the interior branch; the base
gradient color there is (50, 35, 120, 255), but the pixel lies inside the
top cylinder's lower cap ellipse and the bottom cylinder's upper cap
ellipse (while outside both cylinder rectangles and the connector), so the
bottom upper-cap override wins and the final output is (80, 170, 255, 255). -/
theorem c1_center_pixel_amended :
    nx 256 = 0 ∧ ny 256 = 0 ∧ dist2 256 256 = 0 ∧
    baseColor 256 = ⟨50, 35, 120, 255⟩ ∧
    bot_e1 (nx 256) (ny 256) ∧ top_e2 (nx 256) (ny 256) ∧
    ¬ in_top_cyl (nx 256) (ny 256) ∧ ¬ in_bot_cyl (nx 256) (ny 256) ∧
    ¬ connCond (nx 256) (ny 256) ∧
    pixel 256 256 = ⟨80, 170, 255, 255⟩ := by
  norm_num [pixel, interiorColor, arrowStep, connStep, cyl2Step, cyl1Step, baseColor,
    inTopGroup, inBotGroup, in_top_cyl, in_bot_cyl, top_e1, bot_e1, top_e2, bot_e2,
    connCond, arrow_w, arrow_tip_y, shade, pyint, nx, ny, dist2, size, cy1, cy2,
    cyl_width, cyl_height, ellipse_h, abs_of_nonneg, abs_of_nonpos]

/-- C3: the connector branch is unreachable — its guard demands
`ny > cy1 + cyl_height + 0.05 = 0.05` and `ny < cy2 - cyl_height - 0.05 = -0.05`
simultaneously, so it is false for every pixel — and any pixel whose final
color is red (255, 100, 100) got it from the arrowhead test. -/
theorem c3_connector_unreachable (x y : ℕ) :
    ¬ connCond (nx x) (ny y) ∧
    ((pixel x y).r = 255 ∧ (pixel x y).g = 100 ∧ (pixel x y).b = 100 →
      arrowCond (nx x) (ny y)) := by
  refine ⟨connCond_unsat _ _, fun hred => ?_⟩
  by_contra hnoarrow
  exact absurd hred.1 (ne_of_lt (pixel_r_lt_255 x y hnoarrow))

theorem c3_connector_unreachable_witness :
    ¬ connCond (nx 256) (ny 224) ∧ arrowCond (nx 256) (ny 224) :=
  ⟨(c3_connector_unreachable 256 224).1,
   (c3_connector_unreachable 256 224).2
     (by norm_num [pixel, interiorColor, arrowStep, connStep, cyl2Step, cyl1Step,
       baseColor, inTopGroup, inBotGroup, in_top_cyl, in_bot_cyl, top_e1, bot_e1,
       top_e2, bot_e2, connCond, arrow_w, arrow_tip_y, shade, pyint, nx, ny, dist2,
       size, cy1, cy2, cyl_width, cyl_height, ellipse_h, abs_of_nonneg, abs_of_nonpos])⟩

/-- C4 counterexample: pixel (256, 240) satisfies both cylinder membership
tests (including the bottom upper cap `top_e2`), yet its final color is the
arrowhead red (255, 100, 100), not the bottom-cylinder color (80, 170, 255):
the arrowhead test runs after the cylinder tests and overwrites the overlap. -/
theorem c4_overlap_counterexample :
    inTopGroup (nx 256) (ny 240) ∧ inBotGroup (nx 256) (ny 240) ∧
    top_e2 (nx 256) (ny 240) ∧ dist2 256 240 < (17 / 20 : ℚ) ^ 2 ∧
    pixel 256 240 = ⟨255, 100, 100, 255⟩ ∧ pixel 256 240 ≠ ⟨80, 170, 255, 255⟩ := by
  norm_num [pixel, interiorColor, arrowStep, connStep, cyl2Step, cyl1Step, baseColor,
    inTopGroup, inBotGroup, in_top_cyl, in_bot_cyl, top_e1, bot_e1, top_e2, bot_e2,
    connCond, arrow_w, arrow_tip_y, shade, pyint, nx, ny, dist2, size, cy1, cy2,
    cyl_width, cyl_height, ellipse_h, abs_of_nonneg, abs_of_nonpos]

/-- C4 (amended): for every interior pixel passing both the top-cylinder and
bottom-cylinder membership tests, the bottom-cylinder assignment (applied
second, no blending) overwrites the top-cylinder assignment, and the final
color is the bottom-cylinder color — (80, 170, 255) inside the bottom upper
cap, else the shaded (60·shade, 140·shade, 220·shade) — provided the later
arrowhead test does not fire (the connector never fires). -/
theorem c4_bottom_overwrites_top (x y : ℕ)
    (hin : Real.sqrt ((dist2 x y : ℚ) : ℝ) < 17 / 20)
    (_htop : inTopGroup (nx x) (ny y))
    (hbot : inBotGroup (nx x) (ny y))
    (hnoarrow : ¬ arrowCond (nx x) (ny y)) :
    pixel x y = if top_e2 (nx x) (ny y)
      then ⟨80, 170, 255, 255⟩
      else ⟨pyint (60 * shade (nx x)), pyint (140 * shade (nx x)),
            pyint (220 * shade (nx x)), 255⟩ := by
  have h1 : dist2 x y < (17 / 20 : ℚ) ^ 2 := (interior_iff x y).1 hin
  have ha : (cyl1Step (nx x) (ny y) (baseColor y)).a = 255 := by
    rw [cyl1Step_a]
    rfl
  unfold pixel
  rw [if_pos h1]
  unfold interiorColor
  rw [arrowStep_of_not _ _ _ hnoarrow, connStep_noop]
  unfold cyl2Step
  rw [if_pos hbot]
  split_ifs
  · rw [ha]
  · rw [ha]

theorem c4_bottom_overwrites_top_witness :
    pixel 320 240 = ⟨80, 170, 255, 255⟩ := by
  have h := c4_bottom_overwrites_top 320 240
    ((interior_iff 320 240).2 (by norm_num [dist2, nx, ny, size]))
    (Or.inr (Or.inr (by norm_num [bot_e1, nx, ny, size, cy1, cyl_width, cyl_height,
      ellipse_h])))
    (Or.inr (Or.inl (by norm_num [top_e2, nx, ny, size, cy2, cyl_width, cyl_height,
      ellipse_h])))
    (by norm_num [arrowCond, arrow_w, arrow_tip_y, nx, ny, size, cy2, cyl_height,
      abs_of_nonneg, abs_of_nonpos])
  rw [h, if_pos (by norm_num [top_e2, nx, ny, size, cy2, cyl_width, cyl_height,
    ellipse_h])]

/-- C5 counterexample: pixel (474, 256) lies in the rim band just inside the
0.85 boundary (`dist = 218/256 ≈ 0.8516`), and its alpha is 247 — close to
255, not "approximately 255/18 ≈ 14" as the claim asserts for pixels just
inside the 0.85 boundary. -/
theorem c5_rim_alpha_counterexample :
    (17 / 20 : ℚ) ^ 2 ≤ dist2 474 256 ∧ dist2 474 256 < (9 / 10 : ℚ) ^ 2 ∧
    (pixel 474 256).a = 247 ∧ (pixel 474 256).a ≠ 14 := by
  have hb1 : (17 / 20 : ℚ) ^ 2 ≤ dist2 474 256 := by norm_num [dist2, nx, ny, size]
  have hb2 : dist2 474 256 < (9 / 10 : ℚ) ^ 2 := by norm_num [dist2, nx, ny, size]
  have hv : (pixel 474 256).a = 247 := by
    rw [pixel_rim_a 474 256 hb1 hb2, show radSq 474 256 = 47524 by norm_num [radSq]]
    exact rimChannel_255_47524
  refine ⟨hb1, hb2, hv, ?_⟩
  rw [hv]
  norm_num

/-- C5 (amended): for every pixel in the rim band `0.85 ≤ dist < 0.9` the
output alpha equals `int(255 * (0.9 - dist) / 0.05)` (stated as the real
floor, the value being nonnegative there); alpha is monotonically decreasing
in dist across the band; the formula reaches 0 at the outermost band radius
(square radius 53084, `dist → 0.9`) and 254 ≈ 255 (not ≈ 255/18) at the
innermost band radius (square radius 47350, just inside the 0.85 boundary);
and the pixel (480, 256) at exactly `dist = 0.875` has alpha 127. -/
theorem c5_rim_alpha :
    (∀ x y : ℕ, (17 / 20 : ℝ) ≤ Real.sqrt ((dist2 x y : ℚ) : ℝ) →
        Real.sqrt ((dist2 x y : ℚ) : ℝ) < 9 / 10 →
        (pixel x y).a
          = ⌊(255 : ℝ) * ((9 / 10 - Real.sqrt ((dist2 x y : ℚ) : ℝ)) / (1 / 20))⌋) ∧
    (∀ x y x' y' : ℕ, (17 / 20 : ℝ) ≤ Real.sqrt ((dist2 x y : ℚ) : ℝ) →
        Real.sqrt ((dist2 x' y' : ℚ) : ℝ) < 9 / 10 →
        Real.sqrt ((dist2 x y : ℚ) : ℝ) ≤ Real.sqrt ((dist2 x' y' : ℚ) : ℝ) →
        (pixel x' y').a ≤ (pixel x y).a) ∧
    rimChannel 255 53084 = 0 ∧ rimChannel 255 47350 = 254 ∧
    (pixel 480 256).a = 127 := by
  refine ⟨?_, ?_, rimChannel_255_53084, rimChannel_255_47350, ?_⟩
  · intro x y h1 h2
    have h1' := (rim_le_iff x y).1 h1
    have h2' := (rim_lt_iff x y).1 h2
    rw [pixel_rim_a x y h1' h2', rimChannel_eq_floor, dist2_castR]
    norm_num
  · intro x y x' y' h1 h2 hle
    have hband1 := (rim_le_iff x y).1 h1
    have hband2' := (rim_lt_iff x' y').1 h2
    have hband1' := (rim_le_iff x' y').1 (le_trans h1 hle)
    have hband2 := (rim_lt_iff x y).1 (lt_of_le_of_lt hle h2)
    have hdle : dist2 x y ≤ dist2 x' y' := by
      have hRle : ((dist2 x y : ℚ) : ℝ) ≤ ((dist2 x' y' : ℚ) : ℝ) := by
        rwa [Real.sqrt_le_sqrt_iff (by exact_mod_cast dist2_nonneg x' y')] at hle
      exact_mod_cast hRle
    have hkle : radSq x y ≤ radSq x' y' := by
      rw [dist2_eq_radSq, dist2_eq_radSq] at hdle
      have := (div_le_div_iff_of_pos_right (c := (65536 : ℚ)) (by norm_num)).1 hdle
      exact_mod_cast this
    rw [pixel_rim_a x y hband1 hband2, pixel_rim_a x' y' hband1' hband2']
    exact rimChannel_anti 255 hkle
  · have hb1 : (17 / 20 : ℚ) ^ 2 ≤ dist2 480 256 := by norm_num [dist2, nx, ny, size]
    have hb2 : dist2 480 256 < (9 / 10 : ℚ) ^ 2 := by norm_num [dist2, nx, ny, size]
    rw [pixel_rim_a 480 256 hb1 hb2, show radSq 480 256 = 50176 by norm_num [radSq]]
    exact rimChannel_255_50176

theorem c5_rim_alpha_witness :
    (pixel 474 256).a
      = ⌊(255 : ℝ) * ((9 / 10 - Real.sqrt ((dist2 474 256 : ℚ) : ℝ)) / (1 / 20))⌋ ∧
    (pixel 480 256).a ≤ (pixel 474 256).a := by
  have h1 : (17 / 20 : ℝ) ≤ Real.sqrt ((dist2 474 256 : ℚ) : ℝ) :=
    (rim_le_iff 474 256).2 (by norm_num [dist2, nx, ny, size])
  have h2 : Real.sqrt ((dist2 474 256 : ℚ) : ℝ) < 9 / 10 :=
    (rim_lt_iff 474 256).2 (by norm_num [dist2, nx, ny, size])
  have h3 : Real.sqrt ((dist2 480 256 : ℚ) : ℝ) < 9 / 10 :=
    (rim_lt_iff 480 256).2 (by norm_num [dist2, nx, ny, size])
  have hle : Real.sqrt ((dist2 474 256 : ℚ) : ℝ) ≤ Real.sqrt ((dist2 480 256 : ℚ) : ℝ) :=
    Real.sqrt_le_sqrt (by
      have : dist2 474 256 ≤ dist2 480 256 := by norm_num [dist2, nx, ny, size]
      exact_mod_cast this)
  exact ⟨c5_rim_alpha.1 474 256 h1 h2, c5_rim_alpha.2.1 474 256 480 256 h1 h3 hle⟩

/-- C6: every pixel with `dist ≥ 0.9` is fully transparent black
(0, 0, 0, 0). -/
theorem c6_outer_transparent (x y : ℕ)
    (h : (9 / 10 : ℝ) ≤ Real.sqrt ((dist2 x y : ℚ) : ℝ)) :
    pixel x y = ⟨0, 0, 0, 0⟩ := by
  have h1 : (9 / 10 : ℚ) ^ 2 ≤ dist2 x y := (outer_iff x y).1 h
  unfold pixel
  rw [if_neg (not_lt.2 (le_trans (by norm_num) h1)), if_neg (not_lt.2 h1)]

theorem c6_outer_transparent_witness : pixel 0 0 = ⟨0, 0, 0, 0⟩ :=
  c6_outer_transparent 0 0
    ((outer_iff 0 0).2 (by norm_num [dist2, nx, ny, size]))

/-- C7: the IHDR payload is exactly 13 bytes — width 512 and height 512 as
4-byte big-endian, then bit depth 8, color type 6, compression method 0,
filter method 0, interlace method 0. -/
theorem c7_ihdr_payload :
    ihdr.length = 13 ∧
    ihdr = pack32 512 ++ pack32 512 ++ [8, 6, 0, 0, 0] ∧
    ihdr = [0, 0, 2, 0, 0, 0, 2, 0, 8, 6, 0, 0, 0] := by
  refine ⟨by decide, by decide, by decide⟩

set_option maxRecDepth 100000 in
/-- C8: every chunk is the payload length as 4-byte big-endian, the type
tag, the payload, then the CRC-32 of (type ++ payload) as 4-byte big-endian;
in particular the trailing 4 bytes encode `crc32 (type ++ payload)`, which
(checked on the IHDR chunk) differs from the CRC-32 of the payload alone. -/
theorem c8_chunk_layout :
    (∀ t d : List ℕ, chunk t d
        = pack32 d.length ++ t ++ d ++ pack32 (crc32 (t ++ d) &&& 0xFFFFFFFF)) ∧
    (∀ t d : List ℕ, (chunk t d).length = 8 + t.length + d.length) ∧
    (∀ t d : List ℕ, (chunk t d).take 4 = pack32 d.length) ∧
    (∀ t d : List ℕ, (chunk t d).drop (4 + t.length + d.length)
        = pack32 (crc32 (t ++ d) &&& 0xFFFFFFFF)) ∧
    crc32 (typeIHDR ++ ihdr) ≠ crc32 ihdr := by
  refine ⟨?_, ?_, ?_, ?_, by decide⟩
  · intro t d
    simp [chunk, List.append_assoc]
  · intro t d
    simp [chunk, pack32]
    omega
  · intro t d
    have h : chunk t d
        = pack32 d.length ++ ((t ++ d) ++ pack32 (crc32 (t ++ d) &&& 0xFFFFFFFF)) := by
      simp [chunk, List.append_assoc]
    rw [h, show (4 : ℕ) = (pack32 d.length).length from rfl, List.take_left]
  · intro t d
    have h : chunk t d
        = (pack32 d.length ++ (t ++ d)) ++ pack32 (crc32 (t ++ d) &&& 0xFFFFFFFF) := rfl
    have hlen : (pack32 d.length ++ (t ++ d)).length = 4 + t.length + d.length := by
      simp [pack32]
      omega
    rw [h, ← hlen, List.drop_left]

theorem c8_chunk_layout_witness :
    (chunk typeIEND []).drop (4 + typeIEND.length + List.length ([] : List ℕ))
      = pack32 (crc32 (typeIEND ++ []) &&& 0xFFFFFFFF) :=
  c8_chunk_layout.2.2.2.1 typeIEND []

/-- C9: every interior pixel (`dist < 0.85`) has alpha exactly 255: the
cylinder, cap, connector and arrowhead overrides reassign only r, g, b. -/
theorem c9_interior_alpha (x y : ℕ)
    (h : Real.sqrt ((dist2 x y : ℚ) : ℝ) < 17 / 20) :
    (pixel x y).a = 255 := by
  have h1 := (interior_iff x y).1 h
  unfold pixel
  rw [if_pos h1]
  exact interiorColor_a x y

theorem c9_interior_alpha_witness : (pixel 256 256).a = 255 :=
  c9_interior_alpha 256 256
    ((interior_iff 256 256).2 (by norm_num [dist2, nx, ny, size]))

/-- C10: the generator is deterministic — the PNG byte stream is a pure
function of the fixed constants and the (deterministic) compressor, so two
runs with the same compressor produce byte-identical output. -/
theorem c10_png_deterministic (compress1 compress2 : List ℤ → List ℕ)
    (h : compress1 = compress2) : png compress1 = png compress2 := by
  rw [h]

theorem c10_png_deterministic_witness :
    png (fun _ => []) = png (fun _ => []) :=
  c10_png_deterministic _ _ rfl

end PgShift
